import Mathlib

/-!
Verification development for the Portlify resume-parsing pipeline
(text extractor, section detector, normalizer, parsing orchestrator).

JavaScript strings are modelled as `List Char`; JavaScript `null`-able
values as `Option`; the mutable `lastIndex` fields of the three global
regular expressions (`EMAIL_PATTERN`, `PHONE_PATTERN`,
`URL_PATTERNS.website`, all created with the `g` flag) as an explicit
`RegexSt` record threaded through the detector.  Regular expressions are
translated into executable backtracking matchers over `List Char`.
-/

namespace Portlify

/-- JavaScript strings, modelled as lists of characters. -/
abbrev Str := List Char

/-- Shorthand for turning a Lean string literal into the model type. -/
def str (s : String) : Str := s.toList

/-- JavaScript whitespace (the `\s` class and the set trimmed by
`String.prototype.trim`): space, tab, line feed, vertical tab, form
feed, carriage return, NBSP. -/
def isWS (c : Char) : Bool :=
  c = ' ' || c = '\t' || c = '\n' || c = '\x0b' || c = '\x0c' || c = '\r' || c = ' '

/-- `String.prototype.trimStart`. -/
def trimStart (s : Str) : Str := s.dropWhile isWS

/-- `String.prototype.trimEnd`. -/
def trimEnd (s : Str) : Str := (s.reverse.dropWhile isWS).reverse

/-- `String.prototype.trim`: drop whitespace from both ends. -/
def trim (s : Str) : Str := trimEnd (trimStart s)

/-- JS `s.split(c)` for a single-character separator: `List.splitOn`
has exactly these semantics (`"".split(c) = [""]` included). -/
def jsSplitChar (c : Char) (s : Str) : List Str := s.splitOn c

/-- JS `parts.join(c)` for a single-character separator. -/
def jsJoinChar (c : Char) (parts : List Str) : Str := [c].intercalate parts

/-- Core of `replace(/\n{3,}/g, '\n\n')`: `k` counts the newline run
currently being read; a run of one or two newlines is kept, a run of
three or more is replaced by exactly two. -/
def collapseAux : Nat → Str → Str
  | k, [] => List.replicate (min k 2) '\n'
  | k, c :: rest =>
    if c = '\n' then collapseAux (k + 1) rest
    else List.replicate (min k 2) '\n' ++ c :: collapseAux 0 rest

/-- `rawText.replace(/\n{3,}/g, '\n\n')` (textExtractor.js). -/
def collapseNewlines (s : Str) : Str := collapseAux 0 s

/-- No two adjacent newline characters occur in the string (the shape
of the string rebuilt from non-empty newline-free lines). -/
def noAdjNL : Str → Bool
  | [] => true
  | [_] => true
  | a :: b :: rest => !(a = '\n' && b = '\n') && noAdjNL (b :: rest)

/-- `normalizeText` (textExtractor.js): split on line breaks, trim each
line, drop lines that become empty, rejoin with single breaks, collapse
runs of three or more breaks. -/
def normalizeText (s : Str) : Str :=
  collapseNewlines
    (jsJoinChar '\n'
      (((jsSplitChar '\n' s).map trim).filter (fun line => line.length > 0)))

/-- ASCII lower-casing of one character, for the `i` regex flag and
`String.prototype.toLowerCase` on the ASCII inputs this code handles. -/
def lowerChar (c : Char) : Char :=
  if 'A' ≤ c && c ≤ 'Z' then Char.ofNat (c.toNat + 32) else c

/-- Case-insensitive test that `pat` is a prefix of `s`. -/
def ciStarts (pat s : Str) : Bool :=
  ((s.take pat.length).map lowerChar) = pat.map lowerChar

/-- JS `s.includes(pat)`: `pat` occurs as a contiguous substring. -/
def containsStr (s pat : Str) : Bool :=
  s.tails.any (fun t => pat.isPrefixOf t)

/-!
### Regular-expression matchers

A `Matcher` takes the input suffix and returns the list of possible
remainders after a match, in the order a backtracking engine would try
them (preferred alternative first, greedy repetition first).  A match
attempt at a position succeeds iff the list is non-empty, and the first
element corresponds to the match the JS engine reports.
-/

/-- Backtracking matcher: possible remainders, preferred first. -/
abbrev Matcher := Str → List Str

/-- Match a single character satisfying `p` (a character class). -/
def mChar (p : Char → Bool) : Matcher := fun cs =>
  match cs with
  | [] => []
  | c :: rest => if p c then [rest] else []

/-- Match a literal string, case-sensitively. -/
def mStr (lit : Str) : Matcher := fun cs =>
  if lit.isPrefixOf cs then [cs.drop lit.length] else []

/-- Match a literal string, case-insensitively (the `i` flag). -/
def mStrCI (lit : Str) : Matcher := fun cs =>
  if ciStarts lit cs then [cs.drop lit.length] else []

/-- Sequencing of two matchers. -/
def mSeq (a b : Matcher) : Matcher := fun cs => (a cs).flatMap b

/-- Alternation `a|b`: the left alternative is preferred. -/
def mAlt (a b : Matcher) : Matcher := fun cs => a cs ++ b cs

/-- `a?`: greedy, so the one-occurrence branch is preferred. -/
def mOpt (a : Matcher) : Matcher := fun cs => a cs ++ [cs]

/-- `p*` over a character class: greedy, longest run first. -/
def mStar (p : Char → Bool) : Matcher := fun cs =>
  let n := (cs.takeWhile p).length
  (List.range (n + 1)).reverse.map (fun k => cs.drop k)

/-- `p+` over a character class: greedy, longest run first. -/
def mPlus (p : Char → Bool) : Matcher := fun cs =>
  let n := (cs.takeWhile p).length
  (List.range' 1 n).reverse.map (fun k => cs.drop k)

/-- `p{lo,hi}` over a character class: greedy. -/
def mRep (p : Char → Bool) (lo hi : Nat) : Matcher := fun cs =>
  let n := min hi (cs.takeWhile p).length
  (List.range' lo (n + 1 - lo)).reverse.map (fun k => cs.drop k)

/-- `p{k}` over a character class: exactly `k` characters. -/
def mCount (p : Char → Bool) (k : Nat) : Matcher := fun cs =>
  if (cs.take k).length = k && (cs.take k).all p then [cs.drop k] else []

/-- Length of the match `m` finds at the current position, if any
(the first remainder is the one the engine commits to). -/
def runFrom (m : Matcher) (cs : Str) : Option Nat :=
  (m cs).head?.map (fun rem => cs.length - rem.length)

/-- First match of `m` at a position `≥ i` in the suffix `cs` (whose
first character sits at absolute index `i`): absolute start and end. -/
def findAt (m : Matcher) : Str → Nat → Option (Nat × Nat)
  | cs, i =>
    match runFrom m cs with
    | some len => some (i, i + len)
    | none =>
      match cs with
      | [] => none
      | _ :: rest => findAt m rest (i + 1)

/-- First match of `m` in `cs` starting at absolute index `≥ st`
(the `lastIndex` search of a `g`-flagged regex). -/
def findFromIdx (m : Matcher) (st : Nat) (cs : Str) : Option (Nat × Nat) :=
  findAt m (cs.drop st) st

/-- `regex.test(s)` for a `g`-flagged regex: search from `lastIndex`;
on success `lastIndex` becomes the match end, on failure it resets to
`0`.  Returns the test result and the new `lastIndex`. -/
def gTest (m : Matcher) (st : Nat) (cs : Str) : Bool × Nat :=
  match findFromIdx m st cs with
  | some (_, e) => (true, e)
  | none => (false, 0)

/-- `regex.test(s)` / `s.match(regex)` search for a regex without the
`g` flag: stateless search from the start. -/
def search (m : Matcher) (cs : Str) : Bool := (findAt m cs 0).isSome

/-- `s.match(regex)` without the `g` flag: the first matched substring. -/
def matchFirst (m : Matcher) (cs : Str) : Option Str :=
  (findAt m cs 0).map (fun r => (cs.drop r.1).take (r.2 - r.1))

/-- Worker for `s.match(regex)` with the `g` flag: collect successive
non-overlapping matches; fuel bounds the recursion. -/
def gMatchAux (m : Matcher) (cs : Str) : Nat → Nat → List Str
  | _, 0 => []
  | pos, fuel + 1 =>
    match findFromIdx m pos cs with
    | none => []
    | some (s, e) =>
      (cs.drop s).take (e - s) :: gMatchAux m cs (if e = s then e + 1 else e) fuel

/-- `s.match(regex)` for a `g`-flagged regex: the list of all matches
(`null` when none is modelled by the empty list); afterwards the
regex's `lastIndex` is `0` again. -/
def gMatchAll (m : Matcher) (cs : Str) : List Str :=
  gMatchAux m cs 0 (cs.length + 1)

/-! ### The concrete patterns of sectionDetector.js -/

/-- `[0-9]`. -/
def isDigit (c : Char) : Bool := '0' ≤ c && c ≤ '9'

/-- `[a-zA-Z]`. -/
def isAlpha (c : Char) : Bool := ('a' ≤ c && c ≤ 'z') || ('A' ≤ c && c ≤ 'Z')

/-- `[a-zA-Z0-9]`. -/
def isAlphaNum (c : Char) : Bool := isAlpha c || isDigit c

/-- The class `[a-zA-Z0-9._-]` of `EMAIL_PATTERN`. -/
def emailChar (c : Char) : Bool := isAlphaNum c || c = '.' || c = '_' || c = '-'

/-- The class `[a-zA-Z0-9_-]` ending `EMAIL_PATTERN`, also the handle
class of the GitHub and LinkedIn URL patterns. -/
def handleChar (c : Char) : Bool := isAlphaNum c || c = '_' || c = '-'

/-- `EMAIL_PATTERN = /([a-zA-Z0-9._-]+@[a-zA-Z0-9._-]+\.[a-zA-Z0-9_-]+)/gi`. -/
def emailMatcher : Matcher :=
  mSeq (mPlus emailChar)
    (mSeq (mChar (· = '@'))
      (mSeq (mPlus emailChar)
        (mSeq (mChar (· = '.')) (mPlus handleChar))))

/-- The class `[-.\s]` of `PHONE_PATTERN`. -/
def sepChar (c : Char) : Bool := c = '-' || c = '.' || isWS c

/-- `PHONE_PATTERN = /(\+?\d{1,3}[-.\s]?)?\(?\d{3}\)?[-.\s]?\d{3}[-.\s]?\d{4}/g`. -/
def phoneMatcher : Matcher :=
  mSeq (mOpt (mSeq (mOpt (mChar (· = '+')))
               (mSeq (mRep isDigit 1 3) (mOpt (mChar sepChar)))))
    (mSeq (mOpt (mChar (· = '(')))
      (mSeq (mCount isDigit 3)
        (mSeq (mOpt (mChar (· = ')')))
          (mSeq (mOpt (mChar sepChar))
            (mSeq (mCount isDigit 3)
              (mSeq (mOpt (mChar sepChar)) (mCount isDigit 4)))))))

/-- `/https?:\/\//` (case-sensitive; the URL-skip test in `detectName`). -/
def urlProtoMatcher : Matcher :=
  mSeq (mStr (str "http")) (mSeq (mOpt (mChar (· = 's'))) (mStr (str "://")))

/-- `URL_PATTERNS.website = /(https?:\/\/[^\s]+)/gi`. -/
def urlMatcherCI : Matcher :=
  mSeq (mStrCI (str "http"))
    (mSeq (mOpt (mChar (fun c => lowerChar c = 's')))
      (mSeq (mStrCI (str "://")) (mPlus (fun c => !isWS c))))

/-- `/(https?:\/\/[^\s]+)/` (case-sensitive, no flags; used in
`detectProjects`). -/
def urlMatcherCS : Matcher :=
  mSeq (mStr (str "http"))
    (mSeq (mOpt (mChar (· = 's')))
      (mSeq (mStr (str "://")) (mPlus (fun c => !isWS c))))

/-! ### Section detector (sectionDetector.js) -/

/-- The five keys of `SECTION_PATTERNS`, in declaration order. -/
inductive SectionName where
  | summary | skills | experience | projects | education
deriving DecidableEq, Repr

/-- The alternatives of each `SECTION_PATTERNS` regex
`/^(kw1|kw2|...)/i`. -/
def sectionKeywords : SectionName → List Str
  | .summary =>
    [str "summary", str "objective", str "profile", str "about",
     str "about me", str "professional summary"]
  | .skills =>
    [str "skills", str "technical skills", str "core competencies",
     str "expertise", str "technologies"]
  | .experience =>
    [str "experience", str "work experience", str "employment",
     str "professional experience", str "work history"]
  | .projects =>
    [str "projects", str "personal projects", str "key projects",
     str "portfolio"]
  | .education =>
    [str "education", str "academic", str "qualifications",
     str "academic background"]

/-- `SECTION_PATTERNS[name].test(line)`: the pattern is anchored at the
start, case-insensitive, so it matches iff some alternative is a
case-insensitive prefix of `line`. -/
def matchesSection (name : SectionName) (line : Str) : Bool :=
  (sectionKeywords name).any (fun kw => ciStarts kw line)

/-- `Object.entries(SECTION_PATTERNS)` iteration order. -/
def sectionOrder : List SectionName :=
  [.summary, .skills, .experience, .projects, .education]

/-- The header loop of `findSections` (and the header-skip test of
`detectName`): first pattern in declaration order that matches. -/
def sectionOf (line : Str) : Option SectionName :=
  sectionOrder.find? (fun name => matchesSection name line)

/-- The mutable `lastIndex` fields of the three module-level
`g`-flagged regex objects. -/
structure RegexSt where
  email : Nat
  phone : Nat
  website : Nat
deriving DecidableEq, Repr

/-- All `lastIndex` fields are `0` when the module is loaded. -/
def regexInit : RegexSt := ⟨0, 0, 0⟩

/-- `line.split(/\s+/).filter(w => w.length > 0)`: the maximal runs of
non-whitespace characters.  `acc` accumulates the current word in
reverse. -/
def wordsAux : Str → Str → List Str
  | acc, [] => if acc = [] then [] else [acc.reverse]
  | acc, c :: rest =>
    if isWS c then
      if acc = [] then wordsAux [] rest else acc.reverse :: wordsAux [] rest
    else wordsAux (c :: acc) rest

/-- The word list `detectName` computes for a candidate line. -/
def words (s : Str) : List Str := wordsAux [] s

/-- `/^[A-Z]/.test(w)`. -/
def isCapitalized (w : Str) : Bool :=
  match w with
  | c :: _ => 'A' ≤ c && c ≤ 'Z'
  | [] => false

/-- The literal `'Unknown'`. -/
def unknownStr : Str := str "Unknown"

/-- Body of the `detectName` scan loop over the index list
`[0, ..., min 5 lines.length - 1]`, threading the shared `lastIndex`
state of `EMAIL_PATTERN` and `PHONE_PATTERN`.  `||` short-circuits, so
the phone test only runs (and only updates its state) when the email
test fails. -/
def detectNameGo (lines : List Str) : List Nat → RegexSt → Option Str × RegexSt
  | [], st => (none, st)
  | i :: rest, st =>
    let line := trim (lines.getD i [])
    let et := gTest emailMatcher st.email line
    if et.1 then detectNameGo lines rest { st with email := et.2 }
    else
      let pt := gTest phoneMatcher st.phone line
      let st' := { st with email := et.2, phone := pt.2 }
      if pt.1 then detectNameGo lines rest st'
      else if search urlProtoMatcher line then detectNameGo lines rest st'
      else if line.length > 50 then detectNameGo lines rest st'
      else if sectionOrder.any (fun name => matchesSection name line) then
        detectNameGo lines rest st'
      else
        let ws := words line
        if 2 ≤ ws.length && ws.length ≤ 4 && ws.all isCapitalized then
          (some line, st')
        else detectNameGo lines rest st'

/-- `detectName` (sectionDetector.js): scan the first five lines for a
2-4 word capitalized line, skipping contact/URL/header/long lines; fall
back to `lines[0] || 'Unknown'`. -/
def detectNameSt (lines : List Str) (st : RegexSt) : Str × RegexSt :=
  match detectNameGo lines (List.range (min 5 lines.length)) st with
  | (some name, st') => (name, st')
  | (none, st') =>
    (match lines.head? with
     | some l0 => if l0 = [] then unknownStr else l0
     | none => unknownStr, st')

/-- `detectContact`: `text.match(EMAIL_PATTERN)` and
`text.match(PHONE_PATTERN)` over the whole text; `match` on a
`g`-flagged regex leaves its `lastIndex` at `0`. -/
def detectContactSt (text : Str) (st : RegexSt) :
    (Option Str × Option Str) × RegexSt :=
  let emails := gMatchAll emailMatcher text
  let phones := gMatchAll phoneMatcher text
  ((emails.head?, phones.head?), { st with email := 0, phone := 0 })

/-- First match of the pattern `lit` + `p`-class capture group
(`github.com/([a-zA-Z0-9_-]+)` and the LinkedIn analogue, both with the
`i` flag): the captured group is the maximal `p`-run after the first
position where the whole pattern matches. -/
def findCapture (lit : Str) (p : Char → Bool) : Str → Option Str
  | [] => none
  | c :: rest =>
    if ciStarts lit (c :: rest) then
      let run := ((c :: rest).drop lit.length).takeWhile p
      if run ≠ [] then some run else findCapture lit p rest
    else findCapture lit p rest

/-- The `links` object produced by `detectLinks`. -/
structure RawLinks where
  github : Option Str
  linkedin : Option Str
  website : Option Str
deriving DecidableEq, Repr

/-- `detectLinks`: GitHub/LinkedIn handles are canonicalized; the
website is the first generic URL that is not a GitHub or LinkedIn URL.
`text.match(URL_PATTERNS.website)` leaves that regex's `lastIndex` at
`0`. -/
def detectLinksSt (text : Str) (st : RegexSt) : RawLinks × RegexSt :=
  let github := (findCapture (str "github.com/") handleChar text).map
    (fun h => str "https://github.com/" ++ h)
  let linkedin := (findCapture (str "linkedin.com/in/") handleChar text).map
    (fun h => str "https://linkedin.com/in/" ++ h)
  let websiteMatches := gMatchAll urlMatcherCI text
  let otherUrls := websiteMatches.filter
    (fun url => !containsStr url (str "github.com") &&
                !containsStr url (str "linkedin.com"))
  (⟨github, linkedin, otherUrls.head?⟩, { st with website := 0 })

/-! #### findSections -/

/-- `lines.slice(a, b)`. -/
def jsSlice (l : List Str) (a b : Nat) : List Str := (l.drop a).take (b - a)

/-- Loop state of `findSections`: `cur` packs the JS pair
`currentSection` / `sectionStartIndex` (both are set together;
`currentSection = null` corresponds to the initial
`sectionStartIndex = -1`), and `secs` is the `sections` object. -/
structure FSState where
  cur : Option (SectionName × Nat)
  secs : SectionName → List Str

/-- `sections` starts with every key mapped to `[]`. -/
def fsInit : FSState := ⟨none, fun _ => []⟩

/-- `sections[name] = v`. -/
def updSec (f : SectionName → List Str) (name : SectionName) (v : List Str) :
    SectionName → List Str :=
  fun n => if n = name then v else f n

/-- One iteration of the `findSections` loop at index `i`: on a header
match, close the open section with `lines.slice(start, i)` and open the
new one at `i + 1`; otherwise leave the state unchanged. -/
def fsStep (lines : List Str) (st : FSState) (i : Nat) : FSState :=
  let line := trim (lines.getD i [])
  match sectionOf line with
  | some name =>
    let secs' :=
      match st.cur with
      | some (c, start) => updSec st.secs c (jsSlice lines start i)
      | none => st.secs
    ⟨some (name, i + 1), secs'⟩
  | none => st

/-- State of the `findSections` loop after processing lines
`0, ..., k-1`. -/
def fsStateAt (lines : List Str) (k : Nat) : FSState :=
  (List.range k).foldl (fsStep lines) fsInit

/-- `findSections` (sectionDetector.js): run the loop over all lines,
then close the last open section with `lines.slice(start)`. -/
def findSections (lines : List Str) : SectionName → List Str :=
  let st := fsStateAt lines lines.length
  match st.cur with
  | some (c, start) => updSec st.secs c (lines.drop start)
  | none => st.secs

/-! #### Per-section parsers -/

/-- `parts.join(' ')`. -/
def joinSpace (parts : List Str) : Str := jsJoinChar ' ' parts

/-- `line.replace(/^[•\-\*]\s*/, '')`: strip one leading bullet glyph
and the whitespace after it. -/
def stripBullet (s : Str) : Str :=
  match s with
  | c :: rest =>
    if c = '•' || c = '-' || c = '*' then rest.dropWhile isWS else s
  | [] => s

/-- `detectSummary`: join the non-blank lines with spaces; `null` when
the section is empty. -/
def detectSummary (sectionLines : List Str) : Option Str :=
  if sectionLines = [] then none
  else some (trim (joinSpace
    (sectionLines.filter (fun line => (trim line).length > 0))))

/-- `detectSkills`: comma-separated mode when the joined text contains
a comma, otherwise one (bullet-stripped) skill per line. -/
def detectSkills (sectionLines : List Str) : List Str :=
  if sectionLines = [] then []
  else
    let text := joinSpace sectionLines
    if text.any (· = ',') then
      ((jsSplitChar ',' text).map trim).filter (fun s => s.length > 0)
    else
      (sectionLines.map (fun line => stripBullet (trim line))).filter
        (fun line => line.length > 0)

/-- `\w` = `[a-zA-Z0-9_]`. -/
def wChar (c : Char) : Bool := isAlphaNum c || c = '_'

/-- `datePattern = /(\d{4}|\w+\s+\d{4}|present|current)/i` of
`detectExperience`. -/
def datePatternM : Matcher :=
  mAlt (mCount isDigit 4)
    (mAlt (mSeq (mPlus wChar) (mSeq (mPlus isWS) (mCount isDigit 4)))
      (mAlt (mStrCI (str "present")) (mStrCI (str "current"))))

/-- `[-–]`. -/
def dashChar (c : Char) : Bool := c = '-' || c = '–'

/-- The duration pattern
`/(\w+\s+\d{4}\s*[-–]\s*\w+\s+\d{4}|\w+\s+\d{4}\s*[-–]\s*present|\d{4}\s*[-–]\s*\d{4})/i`. -/
def durMatcher : Matcher :=
  mAlt
    (mSeq (mPlus wChar) (mSeq (mPlus isWS) (mSeq (mCount isDigit 4)
      (mSeq (mStar isWS) (mSeq (mChar dashChar) (mSeq (mStar isWS)
        (mSeq (mPlus wChar) (mSeq (mPlus isWS) (mCount isDigit 4)))))))))
    (mAlt
      (mSeq (mPlus wChar) (mSeq (mPlus isWS) (mSeq (mCount isDigit 4)
        (mSeq (mStar isWS) (mSeq (mChar dashChar) (mSeq (mStar isWS)
          (mStrCI (str "present"))))))))
      (mSeq (mCount isDigit 4) (mSeq (mStar isWS) (mSeq (mChar dashChar)
        (mSeq (mStar isWS) (mCount isDigit 4))))))

/-- One raw experience entry as built by `detectExperience`. -/
structure RawExp where
  role : Str
  company : Str
  duration : Str
  description : Str
  highlights : List Str
deriving DecidableEq, Repr

/-- `trimmed.split(/\||,|\(/)`. -/
def expSepChar (c : Char) : Bool := c = '|' || c = ',' || c = '('

/-- Split on a character predicate, JS `split` semantics (`splitOnP`
keeps empty pieces, like JS). -/
def splitOnPred (p : Char → Bool) (s : Str) : List Str := s.splitOnP p

/-- Worker for JS `s.split(separatorString)` with a non-empty
separator; fuel bounds the recursion, `acc` holds the current piece in
reverse. -/
def splitOnSubAux (pat : Str) : Nat → Str → Str → List Str
  | 0, acc, cs => [acc.reverse ++ cs]
  | fuel + 1, acc, cs =>
    if pat ≠ [] && pat.isPrefixOf cs then
      acc.reverse :: splitOnSubAux pat fuel [] (cs.drop pat.length)
    else
      match cs with
      | [] => [acc.reverse]
      | c :: rest => splitOnSubAux pat fuel (c :: acc) rest

/-- JS `s.split(pat)` for a string separator (used with `' at '`). -/
def splitOnSub (pat s : Str) : List Str :=
  splitOnSubAux pat (s.length + 1) [] s

/-- The fresh entry `detectExperience` builds for a header line:
`parts[0]` (split on `|`, `,`, `(`, trimmed) is the role, or
role/company if it contains `' at '` (checked on the lower-cased part,
split on the original); the duration comes from re-scanning the whole
line. -/
def parseExpHeader (trimmed : Str) : RawExp :=
  let parts := (splitOnPred expSepChar trimmed).map trim
  let e0 : RawExp := ⟨[], [], [], [], []⟩
  let e1 :=
    match parts.head? with
    | some firstPart =>
      if containsStr (firstPart.map lowerChar) (str " at ") then
        let ps := (splitOnSub (str " at ") firstPart).map trim
        { e0 with role := ps.getD 0 [], company := ps.getD 1 [] }
      else { e0 with role := firstPart }
    | none => e0
  match matchFirst durMatcher trimmed with
  | some d => { e1 with duration := d }
  | none => e1

/-- One iteration of the `detectExperience` loop: `acc` holds the
pushed entries, `cur` the open one. -/
def expStep (acc : List RawExp × Option RawExp) (line : Str) :
    List RawExp × Option RawExp :=
  let trimmed := trim line
  if trimmed = [] then acc
  else if search datePatternM trimmed then
    (match acc.2 with
     | some e => acc.1 ++ [e]
     | none => acc.1, some (parseExpHeader trimmed))
  else
    match acc.2 with
    | some e =>
      let cleaned := stripBullet trimmed
      if cleaned.length > 0 then
        (acc.1, some { e with highlights := e.highlights ++ [cleaned] })
      else acc
    | none => acc

/-- `detectExperience` (sectionDetector.js). -/
def detectExperience (sectionLines : List Str) : List RawExp :=
  if sectionLines = [] then []
  else
    let r := sectionLines.foldl expStep ([], none)
    let exps :=
      match r.2 with
      | some e => r.1 ++ [e]
      | none => r.1
    exps.map (fun e => { e with description := joinSpace e.highlights })

/-- One raw project entry as built by `detectProjects`. -/
structure RawProj where
  title : Str
  tech : List Str
  description : Str
  link : Option Str
deriving DecidableEq, Repr

/-- One iteration of the `detectProjects` loop. -/
def projStep (acc : List RawProj × Option RawProj) (line : Str) :
    List RawProj × Option RawProj :=
  let trimmed := trim line
  if trimmed = [] then acc
  else
    let isBullet :=
      match trimmed with
      | c :: _ => c = '•' || c = '-' || c = '*'
      | [] => false
    if !isBullet && trimmed.length > 5 && !trimmed.any (· = ':') then
      (match acc.2 with
       | some p => acc.1 ++ [p]
       | none => acc.1, some ⟨trimmed, [], [], none⟩)
    else
      match acc.2 with
      | some p =>
        let cleaned := stripBullet trimmed
        let lower := cleaned.map lowerChar
        let p1 :=
          if containsStr lower (str "technologies:") ||
             containsStr lower (str "tech stack:") ||
             containsStr lower (str "built with:") then
            match ((jsSplitChar ':' cleaned).drop 1).head? with
            | some techPart =>
              if techPart ≠ [] then
                { p with tech := ((jsSplitChar ',' techPart).map trim) }
              else p
            | none => p
          else
            { p with description :=
                p.description ++
                  (if p.description ≠ [] then [' '] else []) ++ cleaned }
        let p2 :=
          match matchFirst urlMatcherCS cleaned with
          | some u => { p1 with link := some u }
          | none => p1
        (acc.1, some p2)
      | none => acc

/-- `detectProjects` (sectionDetector.js). -/
def detectProjects (sectionLines : List Str) : List RawProj :=
  if sectionLines = [] then []
  else
    let r := sectionLines.foldl projStep ([], none)
    match r.2 with
    | some p => r.1 ++ [p]
    | none => r.1

/-- The alternatives of
`degreePattern = /(bachelor|master|phd|doctorate|b\.s\.|m\.s\.|b\.a\.|m\.a\.|b\.tech|m\.tech)/i`. -/
def degreeKeywords : List Str :=
  [str "bachelor", str "master", str "phd", str "doctorate", str "b.s.",
   str "m.s.", str "b.a.", str "m.a.", str "b.tech", str "m.tech"]

/-- `degreePattern.test(line)`: unanchored case-insensitive substring
search for any alternative. -/
def hasDegree (s : Str) : Bool :=
  degreeKeywords.any (fun kw => containsStr (s.map lowerChar) kw)

/-- One raw education entry as built by `detectEducation`. -/
structure RawEdu where
  degree : Str
  institution : Str
  year : Str
  details : Str
deriving DecidableEq, Repr

/-- One iteration of the `detectEducation` loop. -/
def eduStep (acc : List RawEdu × Option RawEdu) (line : Str) :
    List RawEdu × Option RawEdu :=
  let trimmed := trim line
  if trimmed = [] then acc
  else if hasDegree trimmed then
    let year :=
      match matchFirst (mCount isDigit 4) trimmed with
      | some y => y
      | none => []
    (match acc.2 with
     | some e => acc.1 ++ [e]
     | none => acc.1, some ⟨trimmed, [], year, []⟩)
  else
    match acc.2 with
    | some e =>
      if e.institution = [] && trimmed.length > 5 then
        (acc.1, some { e with institution := trimmed })
      else
        (acc.1, some { e with details :=
          e.details ++ (if e.details ≠ [] then [' '] else []) ++ trimmed })
    | none => acc

/-- `detectEducation` (sectionDetector.js). -/
def detectEducation (sectionLines : List Str) : List RawEdu :=
  if sectionLines = [] then []
  else
    let r := sectionLines.foldl eduStep ([], none)
    match r.2 with
    | some e => r.1 ++ [e]
    | none => r.1

/-- The `contact` object. -/
structure RawContact where
  email : Option Str
  phone : Option Str
deriving DecidableEq, Repr

/-- The `DetectedSections` intermediate record (nullable / partial
fields, as in the spec's data model). -/
structure DetectedSections where
  name : Option Str
  contact : RawContact
  links : RawLinks
  summary : Option Str
  skills : List Str
  experience : List RawExp
  projects : List RawProj
  education : List RawEdu
deriving DecidableEq, Repr

/-- `detectSections` (sectionDetector.js) with the shared regex
`lastIndex` state made explicit: split into non-blank lines, detect
name (stateful), contact and links (each resetting its regexes'
`lastIndex` to `0`), then segment and parse the sections. -/
def detectSectionsSt (text : Str) (st0 : RegexSt) :
    DetectedSections × RegexSt :=
  let lines := (jsSplitChar '\n' text).filter
    (fun line => (trim line).length > 0)
  let r1 := detectNameSt lines st0
  let r2 := detectContactSt text r1.2
  let r3 := detectLinksSt text r2.2
  let secs := findSections lines
  (⟨some r1.1, ⟨r2.1.1, r2.1.2⟩, r3.1,
    detectSummary (secs .summary), detectSkills (secs .skills),
    detectExperience (secs .experience), detectProjects (secs .projects),
    detectEducation (secs .education)⟩, r3.2)

/-- `detectSections` as called on a fresh module (all `lastIndex`
fields `0`). -/
def detectSections (text : Str) : DetectedSections :=
  (detectSectionsSt text regexInit).1

/-! ### Normalizer (normalizer.js) -/

/-- JS `s || dflt` on strings: the empty string is falsy. -/
def jsOr (s dflt : Str) : Str := if s = [] then dflt else s

/-- JS `v || null` on a nullable string: both `null` and `''` give
`null`. -/
def jsOrNull (v : Option Str) : Option Str :=
  match v with
  | some s => if s = [] then none else some s
  | none => none

/-- JS truthiness of a nullable string (`!!v`). -/
def jsTruthy (v : Option Str) : Bool :=
  match v with
  | some s => s ≠ []
  | none => false

/-- Normalized experience entry. -/
structure Exp where
  role : Str
  company : Str
  duration : Str
  description : Str
  highlights : List Str
deriving DecidableEq, Repr

/-- Normalized project entry (`image` is reserved and always `null`). -/
structure Proj where
  title : Str
  tech : List Str
  description : Str
  link : Option Str
  image : Option Str
deriving DecidableEq, Repr

/-- Normalized education entry. -/
structure Edu where
  degree : Str
  institution : Str
  year : Str
  details : Str
deriving DecidableEq, Repr

/-- The `links` object of the portfolio record. -/
structure PLinks where
  github : Option Str
  linkedin : Option Str
  email : Option Str
  phone : Option Str
  website : Option Str
deriving DecidableEq, Repr

/-- One categorized skill group. -/
structure SkillCat where
  category : Str
  items : List Str
deriving DecidableEq, Repr

/-- The fixed default colors. -/
structure Colors where
  primary : Str
  secondary : Str
  accent : Str
deriving DecidableEq, Repr

/-- The fixed default fonts. -/
structure Fonts where
  heading : Str
  body : Str
deriving DecidableEq, Repr

/-- The fixed `customizations` block. -/
structure Customizations where
  colors : Colors
  fonts : Fonts
  layout : Str
deriving DecidableEq, Repr

/-- The final `PortfolioRecord` produced by `createPortfolioSchema`. -/
structure PortfolioRecord where
  name : Str
  headline : Str
  summary : Str
  skills : List SkillCat
  experience : List Exp
  projects : List Proj
  education : List Edu
  links : PLinks
  theme : Str
  customizations : Customizations
deriving DecidableEq, Repr

/-- `normalizeName`: `'Portfolio Owner'` when the raw name is falsy or
the literal `'Unknown'`, else the trimmed raw name. -/
def normalizeName (rawName : Option Str) : Str :=
  match rawName with
  | none => str "Portfolio Owner"
  | some s =>
    if s = [] || s = unknownStr then str "Portfolio Owner" else trim s

/-- `generateHeadline`: the first experience entry's role when the list
is non-empty and that role is truthy, else `'Professional'`. -/
def generateHeadline (experience : List Exp) : Str :=
  match experience with
  | e :: _ => if e.role ≠ [] then e.role else str "Professional"
  | [] => str "Professional"

/-- The `categories` table of `normalizeSkills`, in declaration
order. -/
def skillCategories : List (Str × List Str) :=
  [(str "Languages",
    [str "javascript", str "python", str "java", str "c++", str "c#",
     str "ruby", str "go", str "rust", str "typescript", str "php",
     str "swift", str "kotlin"]),
   (str "Frontend",
    [str "react", str "vue", str "angular", str "html", str "css",
     str "tailwind", str "bootstrap", str "sass", str "less"]),
   (str "Backend",
    [str "node", str "express", str "django", str "flask", str "spring",
     str "laravel", str ".net", str "fastapi", str "nestjs"]),
   (str "Database",
    [str "mongodb", str "postgresql", str "mysql", str "redis",
     str "dynamodb", str "sql", str "nosql", str "firebase"]),
   (str "DevOps",
    [str "docker", str "kubernetes", str "aws", str "azure", str "gcp",
     str "ci/cd", str "jenkins", str "github actions"]),
   (str "Tools",
    [str "git", str "github", str "gitlab", str "jira", str "figma",
     str "postman", str "vscode"])]

/-- The category a skill falls into: first category (in declaration
order) one of whose keywords is a substring of the lower-cased skill;
unmatched skills go to `'Other'`. -/
def categorizeOne (skill : Str) : Str :=
  match skillCategories.find?
      (fun cat => cat.2.any (fun kw => containsStr (skill.map lowerChar) kw)) with
  | some cat => cat.1
  | none => str "Other"

/-- `normalizeSkills`: push each skill into its category bucket in
input order, then emit the non-empty buckets in declaration order,
`Other` last. -/
def normalizeSkills (rawSkills : List Str) : List SkillCat :=
  if rawSkills = [] then []
  else
    let buckets : Str → List Str :=
      rawSkills.foldl
        (fun b skill =>
          let c := categorizeOne skill
          fun c' => if c' = c then b c' ++ [skill] else b c')
        (fun _ => [])
    (skillCategories.map (fun cat => cat.1) ++ [str "Other"]).foldr
      (fun c acc => if buckets c ≠ [] then ⟨c, buckets c⟩ :: acc else acc) []

/-- `normalizeExperience`: field-wise defaulting; an absent/empty role
becomes `'Position'`. -/
def normalizeExperience (rawExperience : List RawExp) : List Exp :=
  if rawExperience = [] then []
  else rawExperience.map (fun e =>
    ⟨jsOr e.role (str "Position"), jsOr e.company [], jsOr e.duration [],
     jsOr e.description [], e.highlights⟩)

/-- `normalizeProjects`: field-wise defaulting; `image` is always
`null`. -/
def normalizeProjects (rawProjects : List RawProj) : List Proj :=
  if rawProjects = [] then []
  else rawProjects.map (fun p =>
    ⟨jsOr p.title (str "Untitled Project"), p.tech, jsOr p.description [],
     jsOrNull p.link, none⟩)

/-- `normalizeEducation`: field-wise defaulting. -/
def normalizeEducation (rawEducation : List RawEdu) : List Edu :=
  if rawEducation = [] then []
  else rawEducation.map (fun e =>
    ⟨jsOr e.degree [], jsOr e.institution [], jsOr e.year [],
     jsOr e.details []⟩)

/-- `normalizeLinks`: merge contact and links; every absent (or empty)
field is `null`. -/
def normalizeLinks (contact : RawContact) (links : RawLinks) : PLinks :=
  ⟨jsOrNull links.github, jsOrNull links.linkedin, jsOrNull contact.email,
   jsOrNull contact.phone, jsOrNull links.website⟩

/-- The fixed `customizations` defaults. -/
def defaultCustomizations : Customizations :=
  ⟨⟨str "#3B82F6", str "#1E40AF", str "#60A5FA"⟩,
   ⟨str "Inter", str "Inter"⟩, str "default"⟩

/-- `createPortfolioSchema` (normalizer.js). -/
def createPortfolioSchema (ds : DetectedSections) : PortfolioRecord :=
  let name := normalizeName ds.name
  let skills := normalizeSkills ds.skills
  let experience := normalizeExperience ds.experience
  let projects := normalizeProjects ds.projects
  let education := normalizeEducation ds.education
  let links := normalizeLinks ds.contact ds.links
  ⟨name, generateHeadline experience,
   (match ds.summary with
    | some s => s
    | none => []),
   skills, experience, projects, education, links, str "modern",
   defaultCustomizations⟩

/-!
### JSON view of the output record

To state "no null leaves" / "all list fields present" as properties of
the produced JavaScript object (rather than facts about Lean types), the
record is erased to a JSON value tree.
-/

/-- JSON values. -/
inductive JVal where
  | jnull : JVal
  | jstr : Str → JVal
  | jarr : List JVal → JVal
  | jobj : List (Str × JVal) → JVal

/-- A nullable string field as a JSON value. -/
def optJ (v : Option Str) : JVal :=
  match v with
  | some s => .jstr s
  | none => .jnull

mutual

/-- No `null` occurs anywhere in the value. -/
def noNull : JVal → Bool
  | .jnull => false
  | .jstr _ => true
  | .jarr vs => noNullList vs
  | .jobj fs => noNullFields fs

/-- `noNull` over the elements of an array. -/
def noNullList : List JVal → Bool
  | [] => true
  | v :: vs => noNull v && noNullList vs

/-- `noNull` over the fields of an object. -/
def noNullFields : List (Str × JVal) → Bool
  | [] => true
  | f :: fs => noNull f.2 && noNullFields fs

end

/-- JSON view of one skill group. -/
def skillCatJ (sc : SkillCat) : JVal :=
  .jobj [(str "category", .jstr sc.category),
         (str "items", .jarr (sc.items.map .jstr))]

/-- JSON view of one experience entry. -/
def expJ (e : Exp) : JVal :=
  .jobj [(str "role", .jstr e.role), (str "company", .jstr e.company),
         (str "duration", .jstr e.duration),
         (str "description", .jstr e.description),
         (str "highlights", .jarr (e.highlights.map .jstr))]

/-- JSON view of one project entry. -/
def projJ (p : Proj) : JVal :=
  .jobj [(str "title", .jstr p.title),
         (str "tech", .jarr (p.tech.map .jstr)),
         (str "description", .jstr p.description),
         (str "link", optJ p.link), (str "image", optJ p.image)]

/-- JSON view of one project entry without its nullable `link` /
`image` fields. -/
def projCoreJ (p : Proj) : JVal :=
  .jobj [(str "title", .jstr p.title),
         (str "tech", .jarr (p.tech.map .jstr)),
         (str "description", .jstr p.description)]

/-- JSON view of one education entry. -/
def eduJ (e : Edu) : JVal :=
  .jobj [(str "degree", .jstr e.degree),
         (str "institution", .jstr e.institution),
         (str "year", .jstr e.year), (str "details", .jstr e.details)]

/-- JSON view of the `links` object. -/
def linksJ (l : PLinks) : JVal :=
  .jobj [(str "github", optJ l.github), (str "linkedin", optJ l.linkedin),
         (str "email", optJ l.email), (str "phone", optJ l.phone),
         (str "website", optJ l.website)]

/-- JSON view of the `customizations` block. -/
def customizationsJ (c : Customizations) : JVal :=
  .jobj [(str "colors",
          .jobj [(str "primary", .jstr c.colors.primary),
                 (str "secondary", .jstr c.colors.secondary),
                 (str "accent", .jstr c.colors.accent)]),
         (str "fonts",
          .jobj [(str "heading", .jstr c.fonts.heading),
                 (str "body", .jstr c.fonts.body)]),
         (str "layout", .jstr c.layout)]

/-- Full JSON view of the produced portfolio object. -/
def toJson (p : PortfolioRecord) : JVal :=
  .jobj [(str "name", .jstr p.name), (str "headline", .jstr p.headline),
         (str "summary", .jstr p.summary),
         (str "skills", .jarr (p.skills.map skillCatJ)),
         (str "experience", .jarr (p.experience.map expJ)),
         (str "projects", .jarr (p.projects.map projJ)),
         (str "education", .jarr (p.education.map eduJ)),
         (str "links", linksJ p.links), (str "theme", .jstr p.theme),
         (str "customizations", customizationsJ p.customizations)]

/-- JSON view of the record without the `links` object and without the
nullable `link` / `image` fields of projects. -/
def toJsonCore (p : PortfolioRecord) : JVal :=
  .jobj [(str "name", .jstr p.name), (str "headline", .jstr p.headline),
         (str "summary", .jstr p.summary),
         (str "skills", .jarr (p.skills.map skillCatJ)),
         (str "experience", .jarr (p.experience.map expJ)),
         (str "projects", .jarr (p.projects.map projCoreJ)),
         (str "education", .jarr (p.education.map eduJ)),
         (str "theme", .jstr p.theme),
         (str "customizations", customizationsJ p.customizations)]

/-- The four top-level list fields of the produced object are present,
under their documented keys, with array values. -/
def topListsPresent : JVal → Bool
  | .jobj [(_, _), (_, _), (_, _), (k4, .jarr _), (k5, .jarr _),
           (k6, .jarr _), (k7, .jarr _), (_, _), (_, _), (_, _)] =>
    k4 = str "skills" && k5 = str "experience" && k6 = str "projects" &&
      k7 = str "education"
  | _ => false

/-! ### Parsing orchestrator (parserService.js) -/

/-- The options bag of `parseResume`. -/
structure ParseOptions where
  useAI : Bool
deriving DecidableEq, Repr

/-- The process environment as far as `parseResume` consults it. -/
structure Env where
  openaiKey : Option Str
deriving DecidableEq, Repr

/-- The `metadata.sectionsFound` flags plus `textLength`. -/
structure ParseMeta where
  textLength : Nat
  hasName : Bool
  hasContact : Bool
  hasSkills : Bool
  hasExperience : Bool
  hasProjects : Bool
  hasEducation : Bool
deriving DecidableEq, Repr

/-- The object `parseResume` returns: on success
`{success: true, data, metadata}`, on failure
`{success: false, error, data: null}`. -/
structure ParseOutcome where
  success : Bool
  data : Option PortfolioRecord
  metadata : Option ParseMeta
  error : Option Str
deriving DecidableEq, Repr

/-- The `InsufficientContent` message. -/
def tooShortMsg : Str :=
  str "Extracted text is too short. Please ensure the resume has readable content."

/-- `'Unsupported file type: ' + mimetype`. -/
def unsupportedMsg (mimetype : Str) : Str :=
  str "Unsupported file type: " ++ mimetype

/-- The three accepted MIME types. -/
def mimePDF : Str := str "application/pdf"

/-- The DOCX MIME type. -/
def mimeDOCX : Str :=
  str "application/vnd.openxmlformats-officedocument.wordprocessingml.document"

/-- The plain-text MIME type. -/
def mimeTXT : Str := str "text/plain"

/-- `extractText` (textExtractor.js): dispatch on the MIME type; any
other type is rejected before any extractor runs.  The three format
extractors are collaborator calls, modelled by their outcomes
(`Except`: a decode error or the raw text); on success the raw text is
normalized. -/
def extractText (mimetype : Str) (pdfRes docxRes txtRes : Except Str Str) :
    Except Str Str :=
  if mimetype = mimePDF then pdfRes.map normalizeText
  else if mimetype = mimeDOCX then docxRes.map normalizeText
  else if mimetype = mimeTXT then txtRes.map normalizeText
  else .error (unsupportedMsg mimetype)

/-- `parseResume` (parserService.js), taking the outcome of the awaited
`extractText` call: length gate, detection, normalization, the reserved
no-op AI branch, and metadata; any thrown error is caught and returned
as `{success: false, error, data: null}`. -/
def parseResume (extraction : Except Str Str) (options : ParseOptions)
    (env : Env) : ParseOutcome :=
  match extraction with
  | .error e => ⟨false, none, none, some e⟩
  | .ok rawText =>
    if rawText = [] || rawText.length < 50 then
      ⟨false, none, none, some tooShortMsg⟩
    else
      let ds := detectSections rawText
      let portfolioData := createPortfolioSchema ds
      let portfolioData :=
        if options.useAI && env.openaiKey.isSome then portfolioData
        else portfolioData
      ⟨true, some portfolioData,
       some ⟨rawText.length, jsTruthy ds.name,
         jsTruthy ds.contact.email || jsTruthy ds.contact.phone,
         ds.skills.length > 0, decide (ds.experience.length > 0),
         decide (ds.projects.length > 0), decide (ds.education.length > 0)⟩,
       none⟩

/-! ## Helper lemmas -/

theorem dropWhile_dropWhile (p : Char → Bool) (l : Str) :
    (l.dropWhile p).dropWhile p = l.dropWhile p := by
  induction l with
  | nil => rfl
  | cons c l ih =>
    by_cases h : p c = true <;> simp [List.dropWhile_cons, h, ih]

theorem dropWhile_eq_self_of_front (p : Char → Bool) (l l' : Str)
    (hfix : l.dropWhile p = l) (hpre : l' <+: l) : l'.dropWhile p = l' := by
  cases l' with
  | nil => rfl
  | cons c t =>
    obtain ⟨r, hr⟩ := hpre
    subst hr
    rw [List.cons_append] at hfix
    rw [List.dropWhile_cons] at hfix ⊢
    by_cases h : p c = true
    · exfalso
      rw [if_pos h] at hfix
      have hle : ((t ++ r).dropWhile p).length ≤ (t ++ r).length :=
        (List.dropWhile_suffix p).sublist.length_le
      rw [hfix] at hle
      simp only [List.length_cons] at hle
      omega
    · rw [if_neg h]

theorem trimStart_trimStart (s : Str) : trimStart (trimStart s) = trimStart s :=
  dropWhile_dropWhile isWS s

theorem trimEnd_trimEnd (s : Str) : trimEnd (trimEnd s) = trimEnd s := by
  simp [trimEnd, List.reverse_reverse, dropWhile_dropWhile]

theorem trimEnd_front (s : Str) : trimEnd s <+: s := by
  have h := List.dropWhile_suffix (l := s.reverse) isWS
  have h2 : (List.dropWhile isWS s.reverse).reverse <+: s.reverse.reverse :=
    List.reverse_prefix.mpr h
  rw [List.reverse_reverse] at h2
  exact h2

theorem trimStart_trimEnd (s : Str) (hfix : trimStart s = s) :
    trimStart (trimEnd s) = trimEnd s :=
  dropWhile_eq_self_of_front isWS s (trimEnd s) hfix (trimEnd_front s)

theorem trim_trim (s : Str) : trim (trim s) = trim s := by
  unfold trim
  rw [trimStart_trimEnd (trimStart s) (trimStart_trimStart s), trimEnd_trimEnd]

theorem mem_trimStart (s : Str) (c : Char) (h : c ∈ trimStart s) : c ∈ s :=
  (List.dropWhile_suffix isWS).mem h

theorem mem_trim (s : Str) (c : Char) (h : c ∈ trim s) : c ∈ s := by
  unfold trim trimEnd at h
  rw [List.mem_reverse] at h
  have h2 : c ∈ (trimStart s).reverse := (List.dropWhile_suffix isWS).mem h
  rw [List.mem_reverse] at h2
  exact mem_trimStart s c h2

theorem not_mem_splitOnP (p : Char → Bool) (s : Str) (l : Str)
    (hl : l ∈ s.splitOnP p) (c : Char) (hc : c ∈ l) : p c = false := by
  induction s generalizing l with
  | nil =>
    rw [List.splitOnP_nil] at hl
    simp at hl
    subst hl
    simp at hc
  | cons a s ih =>
    rw [List.splitOnP_cons] at hl
    by_cases h : p a = true
    · rw [if_pos h] at hl
      rcases List.mem_cons.mp hl with h1 | h1
      · subst h1; simp at hc
      · exact ih l h1 hc
    · rw [if_neg h] at hl
      rcases hs : s.splitOnP p with _ | ⟨hd, tl⟩
      · exact absurd hs (List.splitOnP_ne_nil p s)
      · rw [hs] at hl
        simp only [List.modifyHead] at hl
        rcases List.mem_cons.mp hl with h1 | h1
        · subst h1
          rcases List.mem_cons.mp hc with h2 | h2
          · subst h2; simpa using h
          · exact ih hd (hs ▸ List.mem_cons_self hd tl) h2
        · exact ih l (hs ▸ List.mem_cons.mpr (Or.inr h1)) hc

theorem not_mem_jsSplitChar (sep : Char) (s : Str) (l : Str)
    (hl : l ∈ jsSplitChar sep s) : sep ∉ l := by
  intro hmem
  have := not_mem_splitOnP (· == sep) s l hl sep hmem
  simp at this

theorem noAdjNL_cons (a : Char) (l : Str) (h : noAdjNL (a :: l) = true) :
    noAdjNL l = true ∧ (a = '\n' → l.head? ≠ some '\n') := by
  cases l with
  | nil => exact ⟨rfl, by simp⟩
  | cons b t =>
    rw [noAdjNL] at h
    rw [Bool.and_eq_true] at h
    refine ⟨h.2, fun ha hb => ?_⟩
    simp at hb
    subst ha hb
    simp at h

theorem noAdjNL_of_not_mem (l : Str) (h : '\n' ∉ l) : noAdjNL l = true := by
  induction l with
  | nil => rfl
  | cons a t ih =>
    cases t with
    | nil => rfl
    | cons b r =>
      rw [noAdjNL]
      have ha : a ≠ '\n' := fun hh => h (hh ▸ List.mem_cons_self a _)
      have ht : '\n' ∉ b :: r := fun hh => h (List.mem_cons.mpr (Or.inr hh))
      simp [ha, ih ht]

theorem noAdjNL_append (l t : Str) (hl : '\n' ∉ l) (ht : noAdjNL t = true)
    (hh : t.head? ≠ some '\n') : noAdjNL (l ++ '\n' :: t) = true := by
  induction l with
  | nil =>
    cases t with
    | nil => rfl
    | cons b r =>
      rw [List.nil_append, noAdjNL]
      have hb : b ≠ '\n' := by
        intro h; exact hh (by simp [h])
      simp [hb, ht]
  | cons c l' ih =>
    have hc : c ≠ '\n' := fun hh' => hl (hh' ▸ List.mem_cons_self c _)
    have hl' : '\n' ∉ l' := fun hh' => hl (List.mem_cons.mpr (Or.inr hh'))
    have h3 := ih hl'
    cases l' with
    | nil =>
      simp only [List.nil_append] at h3
      simp only [List.cons_append, List.nil_append]
      rw [noAdjNL]
      simp [hc, h3]
    | cons d r =>
      simp only [List.cons_append] at h3 ⊢
      rw [noAdjNL]
      simp [hc, h3]

theorem join_noAdjNL (L : List Str) (h : ∀ l ∈ L, l ≠ [] ∧ '\n' ∉ l) :
    noAdjNL (jsJoinChar '\n' L) = true ∧
      (jsJoinChar '\n' L).head? ≠ some '\n' := by
  induction L with
  | nil => exact ⟨rfl, by simp [jsJoinChar, List.intercalate]⟩
  | cons l L' ih =>
    obtain ⟨hne, hnl⟩ := h l (List.mem_cons_self l L')
    have hrest : ∀ x ∈ L', x ≠ [] ∧ '\n' ∉ x :=
      fun x hx => h x (List.mem_cons.mpr (Or.inr hx))
    cases L' with
    | nil =>
      have hl : jsJoinChar '\n' [l] = l := by
        simp [jsJoinChar, List.intercalate]
      rw [hl]
      refine ⟨noAdjNL_of_not_mem l hnl, ?_⟩
      cases l with
      | nil => simp
      | cons c t =>
        have : c ≠ '\n' := fun hh => hnl (hh ▸ List.mem_cons_self c t)
        simp [this]
    | cons l2 L'' =>
      obtain ⟨ihA, ihH⟩ := ih hrest
      have hjoin : jsJoinChar '\n' (l :: l2 :: L'') =
          l ++ '\n' :: jsJoinChar '\n' (l2 :: L'') := by
        simp [jsJoinChar, List.intercalate, List.intersperse]
      rw [hjoin]
      refine ⟨noAdjNL_append l _ hnl ihA ihH, ?_⟩
      cases l with
      | nil => exact absurd rfl hne
      | cons c t =>
        have : c ≠ '\n' := fun hh => hnl (hh ▸ List.mem_cons_self c t)
        simp [this]

theorem collapseAux_of_noAdjNL (s : Str) :
    (noAdjNL s = true → collapseAux 0 s = s) ∧
      (noAdjNL s = true → s.head? ≠ some '\n' → collapseAux 1 s = '\n' :: s) := by
  induction s with
  | nil => exact ⟨fun _ => rfl, fun _ _ => rfl⟩
  | cons c rest ih =>
    constructor
    · intro h
      obtain ⟨hrest, hnext⟩ := noAdjNL_cons c rest h
      rw [collapseAux]
      by_cases hc : c = '\n'
      · rw [if_pos hc, ih.2 hrest (by simpa using hnext hc), hc]
      · rw [if_neg hc]
        simp [ih.1 hrest]
    · intro h hhead
      have hc : c ≠ '\n' := by
        intro hh; exact hhead (by simp [hh])
      obtain ⟨hrest, _⟩ := noAdjNL_cons c rest h
      rw [collapseAux, if_neg hc]
      simp [ih.1 hrest, List.replicate]

theorem normalizeText_eq_join (s : Str) :
    normalizeText s =
      jsJoinChar '\n'
        (((jsSplitChar '\n' s).map trim).filter (fun l => l.length > 0)) := by
  unfold normalizeText collapseNewlines
  apply (collapseAux_of_noAdjNL _).1
  apply (join_noAdjNL _ ?_).1
  intro l hl
  have hlen := List.of_mem_filter hl
  have hmem := List.mem_of_mem_filter hl
  obtain ⟨x, hx, hfx⟩ := List.mem_map.mp hmem
  constructor
  · intro hnil
    rw [hnil] at hlen
    simp at hlen
  · intro hc
    rw [← hfx] at hc
    exact not_mem_jsSplitChar '\n' s x hx (mem_trim x '\n' hc)

/-! ## Claims -/

/-- C2: the section detector is deterministic across calls: running
`detectSections` twice in succession on the same string (the second run
starting from whatever `lastIndex` state the first run left in the
shared `EMAIL_PATTERN` / `PHONE_PATTERN` / website regex objects)
produces the same `DetectedSections` both times.  This holds because
every `detectSections` call ends`detectContact` / `detectLinks`, whose
`String.prototype.match` calls leave every shared `lastIndex` at `0`. -/
theorem detector_deterministic_across_calls (text : Str) :
    (detectSectionsSt text ((detectSectionsSt text regexInit).2)).1 =
      (detectSectionsSt text regexInit).1 := by
  have hstate : ∀ st : RegexSt, (detectSectionsSt text st).2 = regexInit :=
    fun _ => rfl
  rw [hstate regexInit]

/-- C3: the `useAI` option never alters the returned data or metadata:
`parseResume` with any `useAI` value (and any environment, credential
configured or not) returns exactly the result of `parseResume` with
`useAI` absent (`false`). -/
theorem useAI_flag_is_noop (extraction : Except Str Str)
    (options : ParseOptions) (env : Env) :
    parseResume extraction options env = parseResume extraction ⟨false⟩ env := by
  cases extraction <;> simp [parseResume]

/-- C5 counterexample: a detected experience list whose single entry
has an empty role yields headline `'Position'` (the normalized default
role), not the fallback `'Professional'` the claim requires. -/
theorem headline_claim_counterexample :
    (createPortfolioSchema
        ⟨none, ⟨none, none⟩, ⟨none, none, none⟩, none, [],
         [⟨[], [], [], [], []⟩], [], []⟩).headline = str "Position" ∧
      str "Position" ≠ str "Professional" := by
  constructor
  · rfl
  · decide

/-- C5 (amended): the headline is `'Professional'` exactly when the
detected experience list is empty; otherwise it is the *normalized*
role of the first entry: the detected role if non-empty, else the
default `'Position'` that `normalizeExperience` substitutes before
`generateHeadline` runs. -/
theorem headline_amended (ds : DetectedSections) :
    (createPortfolioSchema ds).headline =
      match ds.experience with
      | [] => str "Professional"
      | e :: _ => if e.role = [] then str "Position" else e.role := by
  cases hexp : ds.experience with
  | nil =>
    simp [createPortfolioSchema, normalizeExperience, generateHeadline, hexp]
  | cons e es =>
    have hcons : (e :: es) ≠ ([] : List RawExp) := by simp
    by_cases hr : e.role = []
    · have hpos : jsOr e.role (str "Position") = str "Position" := by
        simp [jsOr, hr]
      have hne : str "Position" ≠ [] := by decide
      simp [createPortfolioSchema, normalizeExperience, generateHeadline,
        hexp, hcons, hpos, hne, hr, jsOr]
    · have hrole : jsOr e.role (str "Position") = e.role := by
        simp [jsOr, hr]
      simp [createPortfolioSchema, normalizeExperience, generateHeadline,
        hexp, hcons, hrole, hr]

theorem map_eq_self_of (f : Str → Str) (l : List Str) (h : ∀ x ∈ l, f x = x) :
    l.map f = l := by
  induction l with
  | nil => rfl
  | cons a t ih =>
    simp [h a (List.mem_cons_self a t),
      ih (fun x hx => h x (List.mem_cons.mpr (Or.inr hx)))]

/-- C4: text normalization is idempotent:
`normalizeText(normalizeText(s)) == normalizeText(s)` for all strings
`s`. -/
theorem normalizeText_idempotent (s : Str) :
    normalizeText (normalizeText s) = normalizeText s := by
  rw [normalizeText_eq_join s]
  have hmem : ∀ l ∈ ((jsSplitChar '\n' s).map trim).filter
      (fun l => l.length > 0), (l ≠ [] ∧ '\n' ∉ l) ∧ trim l = l := by
    intro l hl
    have hlen := List.of_mem_filter hl
    have hmm := List.mem_of_mem_filter hl
    obtain ⟨x, hx, hfx⟩ := List.mem_map.mp hmm
    refine ⟨⟨?_, ?_⟩, ?_⟩
    · intro h0
      rw [h0] at hlen
      simp at hlen
    · intro hc
      rw [← hfx] at hc
      exact not_mem_jsSplitChar '\n' s x hx (mem_trim x '\n' hc)
    · rw [← hfx]
      exact trim_trim x
  by_cases hnil : ((jsSplitChar '\n' s).map trim).filter
      (fun l => l.length > 0) = []
  · rw [hnil]
    rfl
  · rw [normalizeText_eq_join]
    have hsplit : jsSplitChar '\n'
        (jsJoinChar '\n' (((jsSplitChar '\n' s).map trim).filter
          (fun l => l.length > 0))) =
        ((jsSplitChar '\n' s).map trim).filter (fun l => l.length > 0) :=
      List.splitOn_intercalate _ '\n' (fun l hl => (hmem l hl).1.2) hnil
    rw [hsplit, map_eq_self_of trim _ (fun l hl => (hmem l hl).2),
      List.filter_eq_self.mpr ?_]
    intro l hl
    simpa using List.length_pos.mpr (hmem l hl).1.1

theorem noNullList_map_jstr (l : List Str) :
    noNullList (l.map JVal.jstr) = true := by
  induction l with
  | nil => rfl
  | cons a t ih => simp [noNullList, noNull, ih]

theorem noNullList_map_skillCatJ (l : List SkillCat) :
    noNullList (l.map skillCatJ) = true := by
  induction l with
  | nil => rfl
  | cons a t ih =>
    simp [noNullList, skillCatJ, noNull, noNullFields, noNullList_map_jstr, ih]

theorem noNullList_map_expJ (l : List Exp) :
    noNullList (l.map expJ) = true := by
  induction l with
  | nil => rfl
  | cons a t ih =>
    simp [noNullList, expJ, noNull, noNullFields, noNullList_map_jstr, ih]

theorem noNullList_map_projCoreJ (l : List Proj) :
    noNullList (l.map projCoreJ) = true := by
  induction l with
  | nil => rfl
  | cons a t ih =>
    simp [noNullList, projCoreJ, noNull, noNullFields, noNullList_map_jstr, ih]

theorem noNullList_map_eduJ (l : List Edu) :
    noNullList (l.map eduJ) = true := by
  induction l with
  | nil => rfl
  | cons a t ih =>
    simp [noNullList, eduJ, noNull, noNullFields, ih]

/-- C1 (amended): `createPortfolioSchema` is total (a total function of
every `DetectedSections`) and its output has every list field present
(as an array, under its documented key) and no `null` leaves outside
the `links` object and the reserved `link` / `image` fields of project
entries (which are genuinely nullable in the produced object). -/
theorem normalizer_total_null_free_core (ds : DetectedSections) :
    noNull (toJsonCore (createPortfolioSchema ds)) = true ∧
      topListsPresent (toJson (createPortfolioSchema ds)) = true := by
  constructor
  · simp [toJsonCore, noNull, noNullFields, noNullList,
      noNullList_map_skillCatJ, noNullList_map_expJ,
      noNullList_map_projCoreJ, noNullList_map_eduJ, customizationsJ]
  · rfl

/-- C1 counterexample: on the all-null/empty `DetectedSections`, the
produced record does have `null` leaves (the five `links` fields), so
the claimed "no null leaves" is false. -/
theorem normalizer_no_null_counterexample :
    noNull
      (toJson
        (createPortfolioSchema
          ⟨none, ⟨none, none⟩, ⟨none, none, none⟩, none, [], [], [], []⟩)) =
      false := by
  rfl

theorem parse_ok_short (t : Str) (options : ParseOptions) (env : Env)
    (h : t.length < 50) :
    parseResume (Except.ok t) options env =
      ⟨false, none, none, some tooShortMsg⟩ := by
  simp [parseResume, h]

theorem parse_ok_long (t : Str) (options : ParseOptions) (env : Env)
    (h : ¬t.length < 50) :
    parseResume (Except.ok t) options env =
      ⟨true, some (createPortfolioSchema (detectSections t)),
        some ⟨t.length, jsTruthy (detectSections t).name,
          jsTruthy (detectSections t).contact.email ||
            jsTruthy (detectSections t).contact.phone,
          decide ((detectSections t).skills.length > 0),
          decide ((detectSections t).experience.length > 0),
          decide ((detectSections t).projects.length > 0),
          decide ((detectSections t).education.length > 0)⟩,
        none⟩ := by
  have hne : ¬t = [] := by
    intro h0
    rw [h0] at h
    simp at h
  simp [parseResume, h, hne]

/-- C9: `extractText` rejects any MIME type other than the three
supported ones with the `Unsupported file type` error, independently of
what any extractor would return (so before extraction is attempted);
and whenever extraction failed or the length floor is not met,
`parseResume` returns a failure carrying the single error message and a
`null` data payload, never a partial result. -/
theorem unsupported_and_failure_shape :
    (∀ mimetype pdfRes docxRes txtRes,
        mimetype ≠ mimePDF → mimetype ≠ mimeDOCX → mimetype ≠ mimeTXT →
        extractText mimetype pdfRes docxRes txtRes =
          Except.error (unsupportedMsg mimetype))
  ∧ (∀ e options env,
        parseResume (Except.error e) options env =
          ⟨false, none, none, some e⟩)
  ∧ (∀ t options env, t.length < 50 →
        parseResume (Except.ok t) options env =
          ⟨false, none, none, some tooShortMsg⟩) := by
  refine ⟨fun m p d t h1 h2 h3 => ?_, fun e o env => rfl,
    fun t o env h => parse_ok_short t o env h⟩
  simp [extractText, h1, h2, h3]

/-- C9 witness: a PNG MIME type is rejected with the unsupported-type
error whatever the extractors would have produced, and a 2-character
document fails with the single too-short message and `null` data. -/
theorem unsupported_and_failure_shape_witness :
    (str "image/png" ≠ mimePDF ∧ str "image/png" ≠ mimeDOCX ∧
      str "image/png" ≠ mimeTXT ∧
      extractText (str "image/png") (Except.ok (str "x"))
          (Except.ok (str "x")) (Except.ok (str "x")) =
        Except.error (unsupportedMsg (str "image/png")))
  ∧ ((str "hi").length < 50 ∧
      parseResume (Except.ok (str "hi")) ⟨false⟩ ⟨none⟩ =
        ⟨false, none, none, some tooShortMsg⟩) := by
  refine ⟨⟨by decide, by decide, by decide, ?_⟩, by decide, ?_⟩
  · exact unsupported_and_failure_shape.1 (str "image/png") _ _ _
      (by decide) (by decide) (by decide)
  · exact unsupported_and_failure_shape.2.2 (str "hi") ⟨false⟩ ⟨none⟩ (by decide)

/-- C6: over a successful extraction, `parseResume` fails with the
`InsufficientContent` message exactly when the normalized text is
shorter than 50 characters; at 50 characters or more it proceeds to
detection and normalization, returning the normalized record built
from the detected sections. -/
theorem minimum_content_gate (t : Str) (options : ParseOptions) (env : Env) :
    ((parseResume (Except.ok t) options env).success = false ∧
        (parseResume (Except.ok t) options env).error = some tooShortMsg ↔
      t.length < 50)
  ∧ (50 ≤ t.length →
      (parseResume (Except.ok t) options env).success = true ∧
      (parseResume (Except.ok t) options env).data =
        some (createPortfolioSchema (detectSections t)) ∧
      (parseResume (Except.ok t) options env).metadata.isSome = true ∧
      (parseResume (Except.ok t) options env).error = none) := by
  constructor
  · constructor
    · rintro ⟨hsucc, _⟩
      by_contra hge
      rw [parse_ok_long t options env hge] at hsucc
      simp at hsucc
    · intro h
      rw [parse_ok_short t options env h]
      exact ⟨rfl, rfl⟩
  · intro h
    rw [parse_ok_long t options env (by omega)]
    exact ⟨rfl, rfl, rfl, rfl⟩

/-- C6 witness: a 49-character document fails with the
`InsufficientContent` message; a 50-character document succeeds with
the normalized record as data. -/
theorem minimum_content_gate_witness :
    ((parseResume (Except.ok (List.replicate 49 'a')) ⟨false⟩ ⟨none⟩).success =
        false ∧
      (parseResume (Except.ok (List.replicate 49 'a')) ⟨false⟩ ⟨none⟩).error =
        some tooShortMsg)
  ∧ (50 ≤ (List.replicate 50 'a').length ∧
      (parseResume (Except.ok (List.replicate 50 'a')) ⟨false⟩ ⟨none⟩).success =
          true ∧
      (parseResume (Except.ok (List.replicate 50 'a')) ⟨false⟩ ⟨none⟩).data =
        some (createPortfolioSchema (detectSections (List.replicate 50 'a'))) ∧
      (parseResume (Except.ok (List.replicate 50 'a')) ⟨false⟩
          ⟨none⟩).metadata.isSome = true ∧
      (parseResume (Except.ok (List.replicate 50 'a')) ⟨false⟩ ⟨none⟩).error =
        none) := by
  refine ⟨(minimum_content_gate (List.replicate 49 'a') ⟨false⟩ ⟨none⟩).1.mpr
    (by decide), by decide,
    (minimum_content_gate (List.replicate 50 'a') ⟨false⟩ ⟨none⟩).2 (by decide)⟩

theorem words_two_le_ne_nil (line : Str) (h : 2 ≤ (words line).length) :
    line ≠ [] := by
  intro h0
  rw [h0] at h
  simp [words, wordsAux] at h

theorem detectNameGo_some_ne (lines : List Str) (idxs : List Nat)
    (n : Str) (st' : RegexSt) :
    ∀ st : RegexSt, detectNameGo lines idxs st = (some n, st') → n ≠ [] := by
  induction idxs with
  | nil =>
    intro st h
    simp [detectNameGo] at h
  | cons i rest ih =>
    intro st h
    simp only [detectNameGo] at h
    split at h
    · exact ih _ h
    · split at h
      · exact ih _ h
      · split at h
        · exact ih _ h
        · split at h
          · exact ih _ h
          · split at h
            · exact ih _ h
            · split at h
              · next hcond =>
                simp only [Prod.mk.injEq, Option.some.injEq] at h
                obtain ⟨h1, _⟩ := h
                subst h1
                simp only [Bool.and_eq_true, decide_eq_true_eq] at hcond
                exact words_two_le_ne_nil _ hcond.1.1
              · exact ih _ h

theorem detectNameSt_ne (lines : List Str) (st : RegexSt) :
    (detectNameSt lines st).1 ≠ [] := by
  unfold detectNameSt
  rcases hgo : detectNameGo lines (List.range (min 5 lines.length)) st
    with ⟨nm, st'⟩
  cases nm with
  | some n => exact detectNameGo_some_ne lines _ n st' st hgo
  | none =>
    cases hl : lines.head? with
    | none =>
      show unknownStr ≠ []
      decide
    | some l0 =>
      show (if l0 = [] then unknownStr else l0) ≠ []
      by_cases h0 : l0 = []
      · rw [if_pos h0]
        decide
      · rw [if_neg h0]
        exact h0

/-- C10: `detectName` always returns a non-empty string (a qualifying
2-4 word line, the literal first line, or the literal `'Unknown'`), so
the detected name is never null or empty, and every successful
`parseResume` reports `metadata.sectionsFound.hasName = true`. -/
theorem detectName_never_empty :
    (∀ lines st, (detectNameSt lines st).1 ≠ [])
  ∧ (∀ t options env,
      (parseResume (Except.ok t) options env).success = true →
      ((parseResume (Except.ok t) options env).metadata.map
          ParseMeta.hasName).getD false = true) := by
  refine ⟨fun lines st => detectNameSt_ne lines st, fun t options env hs => ?_⟩
  by_cases h : t.length < 50
  · rw [parse_ok_short t options env h] at hs
    simp at hs
  · rw [parse_ok_long t options env h]
    show jsTruthy (detectSections t).name = true
    have hname : (detectSections t).name =
        some ((detectNameSt ((jsSplitChar '\n' t).filter
          (fun line => (trim line).length > 0)) regexInit).1) := rfl
    rw [hname]
    show decide (¬(detectNameSt ((jsSplitChar '\n' t).filter
      (fun line => (trim line).length > 0)) regexInit).1 = []) = true
    rw [decide_eq_true_eq]
    exact detectNameSt_ne _ _

/-- C10 witness: the name detected on the single line `'Unknown'` is
non-empty, and a successful 50-character parse reports
`hasName = true`. -/
theorem detectName_never_empty_witness :
    (detectNameSt [str "Unknown"] regexInit).1 ≠ [] ∧
      ((parseResume (Except.ok (List.replicate 50 'a')) ⟨false⟩
          ⟨none⟩).metadata.map ParseMeta.hasName).getD false = true :=
  ⟨detectName_never_empty.1 [str "Unknown"] regexInit,
    detectName_never_empty.2 (List.replicate 50 'a') ⟨false⟩ ⟨none⟩ (by decide)⟩

/-- C8: name detection on a document whose only line is `'Unknown'`
returns `'Unknown'` (the fallback first line) and normalization maps it
to `'Portfolio Owner'`; in general `normalizeName` returns the trimmed
detected name when it is present (truthy) and not the literal
`'Unknown'`, and `'Portfolio Owner'` otherwise. -/
theorem name_unknown_fallback :
    ((detectSections (str "Unknown")).name = some unknownStr ∧
      (createPortfolioSchema (detectSections (str "Unknown"))).name =
        str "Portfolio Owner")
  ∧ (∀ s, s ≠ [] → s ≠ unknownStr → normalizeName (some s) = trim s)
  ∧ normalizeName none = str "Portfolio Owner"
  ∧ normalizeName (some []) = str "Portfolio Owner"
  ∧ normalizeName (some unknownStr) = str "Portfolio Owner" := by
  refine ⟨⟨by decide, by decide⟩, fun s h1 h2 => ?_, rfl, by decide, by decide⟩
  simp [normalizeName, h1, h2]

/-- C8 witness: a padded two-word name is returned trimmed. -/
theorem name_unknown_fallback_witness :
    str " Jane Doe " ≠ [] ∧ str " Jane Doe " ≠ unknownStr ∧
      normalizeName (some (str " Jane Doe ")) = trim (str " Jane Doe ") :=
  ⟨by decide, by decide,
    name_unknown_fallback.2.1 (str " Jane Doe ") (by decide) (by decide)⟩

theorem fsStateAt_succ (lines : List Str) (k : Nat) :
    fsStateAt lines (k + 1) = fsStep lines (fsStateAt lines k) k := by
  simp [fsStateAt, List.range_succ]

theorem fsStep_none (lines : List Str) (st : FSState) (m : Nat)
    (h : sectionOf (trim (lines.getD m [])) = none) :
    fsStep lines st m = st := by
  simp only [fsStep]
  rw [h]

theorem fsStateAt_const (lines : List Str) (i d : Nat)
    (h : ∀ m, i + 1 ≤ m → m < i + 1 + d →
      sectionOf (trim (lines.getD m [])) = none) :
    fsStateAt lines (i + 1 + d) = fsStateAt lines (i + 1) := by
  induction d with
  | zero => rfl
  | succ d ih =>
    have heq : i + 1 + (d + 1) = (i + 1 + d) + 1 := by omega
    rw [heq, fsStateAt_succ,
      fsStep_none lines _ _ (h (i + 1 + d) (by omega) (by omega))]
    exact ih (fun m h1 h2 => h m h1 (by omega))

/-- C7: if lines `i < j` are both section headers with no header
strictly between them, then at the moment line `j` closes it, the
section opened at line `i` receives exactly the lines `i+1 .. j-1`
(`lines.slice(i+1, j)`, both headers excluded); and when no header
follows line `i`, the final open section's content extends to the end
of the line sequence. -/
theorem section_boundaries (lines : List Str) (i : Nat) (c : SectionName)
    (hi : sectionOf (trim (lines.getD i [])) = some c) :
    (∀ j c', i < j →
        (∀ m, i < m → m < j → sectionOf (trim (lines.getD m [])) = none) →
        sectionOf (trim (lines.getD j [])) = some c' →
        (fsStateAt lines (j + 1)).secs c = jsSlice lines (i + 1) j)
  ∧ ((∀ m, i < m → m < lines.length →
        sectionOf (trim (lines.getD m [])) = none) →
      i < lines.length → findSections lines c = lines.drop (i + 1)) := by
  have hcur : ∀ k, i + 1 ≤ k →
      (∀ m, i < m → m < k → sectionOf (trim (lines.getD m [])) = none) →
      (fsStateAt lines k).cur = some (c, i + 1) := by
    intro k hk hnone
    obtain ⟨d, rfl⟩ : ∃ d, k = i + 1 + d := ⟨k - (i + 1), by omega⟩
    rw [fsStateAt_const lines i d (fun m h1 h2 => hnone m (by omega) h2),
      fsStateAt_succ]
    simp only [fsStep]
    rw [hi]
  constructor
  · intro j c' hij hbet hj
    have h1 := hcur j (by omega) hbet
    rw [fsStateAt_succ]
    simp only [fsStep]
    rw [hj, h1]
    simp [updSec]
  · intro hafter hlen
    have h1 := hcur lines.length (by omega) hafter
    simp only [findSections]
    rw [h1]
    simp [updSec]

/-- C7 witness: in the document
`Skills / Python / Education / BS in CS`, the `Skills` section receives
exactly the line between the two headers, and the final `Education`
section extends to the end. -/
theorem section_boundaries_witness :
    (fsStateAt [str "Skills", str "Python", str "Education", str "BS in CS"]
        3).secs .skills =
      jsSlice [str "Skills", str "Python", str "Education", str "BS in CS"] 1 2
  ∧ findSections [str "Skills", str "Python", str "Education", str "BS in CS"]
      .education =
    [str "BS in CS"] := by
  constructor
  · exact (section_boundaries
      [str "Skills", str "Python", str "Education", str "BS in CS"] 0 .skills
      (by decide)).1 2 .education (by decide)
      (fun m h1 h2 => by
        interval_cases m
        decide)
      (by decide)
  · exact (section_boundaries
      [str "Skills", str "Python", str "Education", str "BS in CS"] 2
      .education (by decide)).2
      (fun m h1 h2 => by
        have h3 : m < 4 := by simpa using h2
        interval_cases m
        decide)
      (by decide)

end Portlify
